import Mathlib

/-!
Shallow embedding of the lokat repository's cache / translator / generator
logic, with theorems checking the natural-language specification.

Modelled components:
* `packages/core/src/index.ts` — `createLokat` (the promise cache `load`,
  the keyed translator `createT`, the indexed translator `createTA`).
* `packages/solid-x/src/index.ts` (and the structurally identical
  `@lokat/solid` adapter) — `createSolidLokat` with `load`, `setLocale`
  (`set`), `preload`, `t`.
* the generator (`apps/gen`) — `loadLayout` and `validateAndOrder`.

JavaScript promises are modelled by identifiers into a per-instance table;
the single-threaded cooperative scheduling of the runtime is modelled by
making each synchronous section of the source one atomic Lean function,
and each promise settlement an explicit separate step.
-/

namespace Lokat

/-- Flat string dictionary, `Record<string, string>`, insertion ordered. -/
abbrev LocaleDict : Type := List (String × String)

/-- Array-mode dictionary of the solid-x adapter, `readonly string[]`. -/
abbrev ADict : Type := List String

/-! ### JavaScript `Map` as an insertion-ordered association list -/

/-- `Map.prototype.get`: the value stored under `k`, if any. -/
def alGet {α β : Type} [BEq α] (m : List (α × β)) (k : α) : Option β :=
  match m with
  | [] => none
  | (k', v) :: rest => if k' == k then some v else alGet rest k

/-- `Map.prototype.set`: replace in place when the key exists, else append
(JS maps keep insertion order and append new keys at the end). -/
def alSet {α β : Type} [BEq α] (m : List (α × β)) (k : α) (v : β) : List (α × β) :=
  match m with
  | [] => [(k, v)]
  | (k', v') :: rest => if k' == k then (k', v) :: rest else (k', v') :: alSet rest k v

/-- `Map.prototype.delete`: remove the entry for `k`.  A JS map never holds
two entries with the same key, so removing every matching entry is the same
operation. -/
def alDelete {α β : Type} [BEq α] (m : List (α × β)) (k : α) : List (α × β) :=
  match m with
  | [] => []
  | (k', v) :: rest => if k' == k then alDelete rest k else (k', v) :: alDelete rest k

theorem alGet_alSet_self {α β : Type} [BEq α] [LawfulBEq α]
    (m : List (α × β)) (k : α) (v : β) : alGet (alSet m k v) k = some v := by
  induction m with
  | nil => simp [alGet, alSet]
  | cons hd tl ih =>
    obtain ⟨k', v'⟩ := hd
    by_cases h : k' == k
    · simp [alGet, alSet, h]
    · simp only [alSet, h, Bool.false_eq_true, if_false, alGet]
      exact ih

theorem alGet_alDelete_self {α β : Type} [BEq α]
    (m : List (α × β)) (k : α) : alGet (alDelete m k) k = none := by
  induction m with
  | nil => simp [alGet, alDelete]
  | cons hd tl ih =>
    obtain ⟨k', v'⟩ := hd
    by_cases h : k' == k
    · simpa [alDelete, h] using ih
    · simpa [alDelete, alGet, h] using ih

/-! ### `@lokat/core` — `createLokat`

`createLokat` keeps `cache : Map<string, Promise<Record<string,string>>>`.
We model a promise as an index into a table of `PromiseState`s.  `load` is
the synchronous body of the source's `load` (no `await` occurs in it), and
`coreSettle` is the later settlement of the underlying fetch: on success
the promise resolves; on rejection the `catch` handler installed by `load`
first deletes the cache entry and then rethrows, so by the time any waiter
observes the rejection the entry is gone.  Errors are abstract `Nat` codes,
and the fetch/JSON work is the caller-observable loader invocation, logged
in `loaderLog`. -/

/-- Status of one promise in the table. -/
inductive PromiseState : Type
  | pending
  | resolved (d : LocaleDict)
  | rejected (e : Nat)
  deriving DecidableEq

/-- State of one `createLokat` instance. -/
structure CoreState : Type where
  /-- `cache`: locale → promise id of the wrapped promise. -/
  cache : List (String × Nat)
  /-- promise table; a promise's id is its index. -/
  promises : List PromiseState
  /-- one entry (the fetched url) per invocation of the underlying loader. -/
  loaderLog : List String
  deriving DecidableEq

/-- The freshly constructed instance: empty cache. -/
def coreInit : CoreState := ⟨[], [], []⟩

/-- Synchronous body of `load(locale)`: return the cached promise if
present, else invoke the loader (`resolveLocaleUrl` + fetch), register the
wrapped promise in the cache and return it.  Returns the promise id the
caller will await. -/
def coreLoad (ru : String → String) (s : CoreState) (locale : String) :
    CoreState × Nat :=
  match alGet s.cache locale with
  | some pid => (s, pid)
  | none =>
      let pid := s.promises.length
      (⟨alSet s.cache locale pid,
        s.promises ++ [PromiseState.pending],
        s.loaderLog ++ [ru locale]⟩, pid)

/-- `n` consecutive `load(locale)` calls with no settlement in between
(single-threaded: nothing can run between them).  Returns the list of
promise ids handed to the `n` callers. -/
def coreLoadN (ru : String → String) (s : CoreState) (locale : String) :
    Nat → CoreState × List Nat
  | 0 => (s, [])
  | n + 1 =>
      let r1 := coreLoad ru s locale
      let r2 := coreLoadN ru r1.1 locale n
      (r2.1, r1.2 :: r2.2)

/-- Settlement of the underlying fetch promise for `locale` (promise id
`pid`).  On success the wrapped promise resolves with the dictionary and
the cache entry stays.  On rejection the `catch` handler runs: it deletes
the cache entry and rethrows, so the wrapped promise becomes rejected with
the entry already removed. -/
def coreSettle (s : CoreState) (locale : String) (pid : Nat)
    (outcome : Except Nat LocaleDict) : CoreState :=
  match outcome with
  | .ok d => { s with promises := s.promises.set pid (PromiseState.resolved d) }
  | .error e =>
      { s with
        cache := alDelete s.cache locale,
        promises := s.promises.set pid (PromiseState.rejected e) }

/-- Once `locale` is cached with promise id `pid`, further `load` calls
return the same id and leave the state unchanged. -/
theorem coreLoadN_cached (ru : String → String) (s : CoreState)
    (locale : String) (pid : Nat) (h : alGet s.cache locale = some pid) :
    ∀ n, coreLoadN ru s locale n = (s, List.replicate n pid) := by
  intro n
  induction n with
  | zero => simp [coreLoadN]
  | succ n ih => simp [coreLoadN, coreLoad, h, ih, List.replicate]

/-- After the synchronous part of an uncached `load`, the fresh promise id
is cached under `locale`. -/
theorem coreLoad_uncached (ru : String → String) (s : CoreState)
    (locale : String) (h : alGet s.cache locale = none) :
    coreLoad ru s locale =
      (⟨alSet s.cache locale s.promises.length,
        s.promises ++ [PromiseState.pending],
        s.loaderLog ++ [ru locale]⟩, s.promises.length) := by
  simp [coreLoad, h]

/-! ### `@lokat/solid-x` — `createSolidLokat`

The solid-x adapter (array mode) and the `@lokat/solid` adapter (record
mode) share the same cache / load / set / preload logic; we model the
array-mode source.  The claims about this adapter concern the net effect
of one completed call, so `load` / `setLocale` are modelled as the whole
async function run to completion; each promise records in the table the
outcome it settles with, supplied by the loader oracle `ld` at invocation
time (`ld n` is the outcome of the `n`-th `loadLocale` invocation).  `dc`
is `options.dev?.disableCache`. -/

/-- State of one `createSolidLokat` instance. -/
structure SolidState : Type where
  /-- the locale signal. -/
  locale : String
  /-- `currentDict` (the dict signal mirrors it via `setDictInternal`). -/
  currentDict : ADict
  /-- `cache`: locale → promise id. -/
  cache : List (String × Nat)
  /-- promise table: eventual outcome of each created promise. -/
  promises : List (Except Nat ADict)
  /-- one entry per `loadLocale` invocation (its argument). -/
  loaderLog : List String
  /-- arguments of `dev.onLocaleChange` invocations, in order. -/
  changeLog : List String
  /-- arguments of `dev.onError` invocations, in order. -/
  errorLog : List (Nat × String)

/-- `setDictInternal(d)`: update `currentDict` (and the mirrored signal). -/
def setDictInternal (s : SolidState) (d : ADict) : SolidState :=
  { s with currentDict := d }

/-- `const d = await cached; setDictInternal(d); return d` — awaiting the
cached promise `pid`: publish and return its dictionary when it resolves,
propagate its rejection otherwise (before `setDictInternal` runs). -/
def awaitP (s : SolidState) (pid : Nat) : SolidState × Except Nat ADict :=
  match s.promises.getD pid (Except.error 0) with
  | .ok d => (setDictInternal s d, .ok d)
  | .error e => (s, .error e)

/-- The uncached path of `load(l)`: invoke `loadLocale`, cache the promise
(unless caching is disabled), await it, publish on success; a rejection
propagates before `setDictInternal` runs, and the cache entry is never
removed. -/
def invokeLoader (ld : Nat → Except Nat ADict) (dc : Bool) (s : SolidState)
    (l : String) : SolidState × Except Nat ADict :=
  match ld s.loaderLog.length with
  | .ok d =>
      (setDictInternal
        { s with
          cache := if dc then s.cache else alSet s.cache l s.promises.length,
          promises := s.promises ++ [Except.ok d],
          loaderLog := s.loaderLog ++ [l] } d, .ok d)
  | .error e =>
      ({ s with
          cache := if dc then s.cache else alSet s.cache l s.promises.length,
          promises := s.promises ++ [Except.error e],
          loaderLog := s.loaderLog ++ [l] }, .error e)

/-- The internal async `load(l)` run to completion: consult the cache
(unless caching is disabled) and await the cached promise, else take the
uncached path. -/
def solidLoad (ld : Nat → Except Nat ADict) (dc : Bool) (s : SolidState)
    (l : String) : SolidState × Except Nat ADict :=
  match (if dc then none else alGet s.cache l) with
  | some pid => awaitP s pid
  | none => invokeLoader ld dc s l

/-- `setLocale(l)` (the source's `set`) run to completion: update the
locale signal synchronously, fire `onLocaleChange`, then `load(l)`; on
rejection fire `onError(e, l)` and rethrow. -/
def solidSet (ld : Nat → Except Nat ADict) (dc : Bool) (s : SolidState)
    (l : String) : SolidState × Except Nat ADict :=
  let s1 : SolidState := { s with locale := l, changeLog := s.changeLog ++ [l] }
  let r := solidLoad ld dc s1 l
  match r.2 with
  | .ok d => (r.1, .ok d)
  | .error e => ({ r.1 with errorLog := r.1.errorLog ++ [(e, l)] }, .error e)

/-- Synchronous body of `preload(l)`: return the cached promise if present
(unless caching is disabled), else invoke `loadLocale`, cache the promise
and return it.  Returns the promise id handed to the caller. -/
def solidPreload (ld : Nat → Except Nat ADict) (dc : Bool) (s : SolidState)
    (l : String) : SolidState × Nat :=
  match (if dc then none else alGet s.cache l) with
  | some pid => (s, pid)
  | none =>
      let out := ld s.loaderLog.length
      let pid := s.promises.length
      ({ s with
          cache := if dc then s.cache else alSet s.cache l pid,
          promises := s.promises ++ [out],
          loaderLog := s.loaderLog ++ [l] }, pid)

/-- `n` consecutive `preload(l)` calls with no settlement in between. -/
def solidPreloadN (ld : Nat → Except Nat ADict) (dc : Bool) (s : SolidState)
    (l : String) : Nat → SolidState × List Nat
  | 0 => (s, [])
  | n + 1 =>
      let r1 := solidPreload ld dc s l
      let r2 := solidPreloadN ld dc r1.1 l n
      (r2.1, r1.2 :: r2.2)

/-- Construction options of `createSolidLokat`. -/
structure SolidOptions : Type where
  initialLocale : String
  initialDict : Option ADict
  disableCache : Bool

/-- `createSolidLokat`: seed the locale and dict signals; when no
`initialDict` is supplied, fire-and-forget a `load` of the initial
locale. -/
def createSolid (ld : Nat → Except Nat ADict) (o : SolidOptions) : SolidState :=
  let base : SolidState := ⟨o.initialLocale, o.initialDict.getD [], [], [], [], [], []⟩
  match o.initialDict with
  | some _ => base
  | none => (solidLoad ld o.disableCache base o.initialLocale).1

/-- JavaScript array indexing `arr[id]` for an integer `id`: the element
when `0 ≤ id < arr.length`, `undefined` (modelled `none`) otherwise. -/
def jsIndex (arr : List String) (id : Int) : Option String :=
  if 0 ≤ id then arr.get? id.toNat else none

/-- solid-x translator `t(id)`: `currentDict[id] as string`, no fallback. -/
def solidT (s : SolidState) (id : Int) : Option String :=
  jsIndex s.currentDict id

/-- Core keyed translator `createT(dict)`: `(key) => dict[key] ?? key`. -/
def createT (dict : LocaleDict) : String → String :=
  fun key => (alGet dict key).getD key

/-- Core indexed translator `createTA(arr)`: `(id) => arr[id] as string`. -/
def createTA (arr : ADict) : Int → Option String :=
  fun id => jsIndex arr id

/-- Once `l` is cached with promise id `pid`, further `preload` calls
return the same id and leave the state unchanged. -/
theorem solidPreloadN_cached (ld : Nat → Except Nat ADict) (s : SolidState)
    (l : String) (pid : Nat) (h : alGet s.cache l = some pid) :
    ∀ n, solidPreloadN ld false s l n = (s, List.replicate n pid) := by
  intro n
  induction n with
  | zero => simp [solidPreloadN]
  | succ n ih => simp [solidPreloadN, solidPreload, h, ih, List.replicate]

/-! ### `apps/gen` — `loadLayout`

The file system is a parameter: `isDir` models
`existsSync(p) && statSync(p).isDirectory()`, `listing` models
`readdirSync`, and `file` gives what reading+parsing a path yields —
`ok d` when the JSON parses to the dictionary `d`, `unreadable` when
`readFileSync` throws (its error names the path), `malformed` when
`JSON.parse` throws (its `SyntaxError` does not name the path).
-/

/-- What `readFileSync` + `JSON.parse` yield at a path. -/
inductive FileRes : Type
  | ok (d : LocaleDict)
  | unreadable
  | malformed
  deriving DecidableEq

/-- A thrown-and-propagated generator error.  `fsError` carries the path
(a Node fs error message names the file); `parseError` does not (a
`SyntaxError` from `JSON.parse` has no file name in it). -/
inductive GenErr : Type
  | fsError (path : String)
  | parseError
  deriving DecidableEq

/-- File-system oracle of one generation run. -/
structure FS : Type where
  isDir : String → Bool
  listing : String → List String
  file : String → FileRes

/-- `join` of `node:path` for our two-segment uses. -/
def joinP (a b : String) : String := a ++ "/" ++ b

/-- `String.prototype.endsWith`, on the character sequence. -/
def strEndsWith (s suffix : String) : Bool := suffix.data.isSuffixOf s.data

/-- `String.prototype.startsWith`, on the character sequence. -/
def strStartsWith (s pre : String) : Bool := pre.data.isPrefixOf s.data

/-- Drop the last `n` characters (`basename(f, ".json")` / `slice` end). -/
def strDropRight (s : String) (n : Nat) : String :=
  ⟨s.data.take (s.data.length - n)⟩

/-- Drop the first `n` characters (`slice` start). -/
def strDrop (s : String) (n : Nat) : String := ⟨s.data.drop n⟩

/-- `readJson(file)`: `JSON.parse(readFileSync(file, "utf8"))`. -/
def readJson (fs : FS) (path : String) : Except GenErr LocaleDict :=
  match fs.file path with
  | .ok d => Except.ok d
  | .unreadable => Except.error (GenErr.fsError path)
  | .malformed => Except.error GenErr.parseError

/-- Per-locale namespace map under construction. -/
abbrev NsMap : Type := List (String × LocaleDict)

/-- The nested-convention loop over `readdirSync(inputDir/locale)`.  Any
exception thrown by `readJson` escapes the loop into the surrounding empty
`catch {}`: the scan stops and keeps what was already read (`found` stays
whatever it was). -/
def nestedScan (fs : FS) (dir : String) :
    List String → NsMap → Bool → NsMap × Bool
  | [], nsMap, found => (nsMap, found)
  | f :: rest, nsMap, found =>
      if strEndsWith f ".json" then
        match readJson fs (joinP dir f) with
        | .ok d => nestedScan fs dir rest (alSet nsMap (strDropRight f 5) d) true
        | .error _ => (nsMap, found)
      else nestedScan fs dir rest nsMap found

/-- The flat-convention loop over `readdirSync(inputDir)`: here a
`readJson` exception is not caught and aborts the whole run. -/
def flatScan (fs : FS) (inputDir loc : String) :
    List String → NsMap → Except GenErr NsMap
  | [], nsMap => Except.ok nsMap
  | f :: rest, nsMap =>
      if strStartsWith f (loc ++ ".") && strEndsWith f ".json" then
        match readJson fs (joinP inputDir f) with
        | .ok d =>
            flatScan fs inputDir loc rest
              (alSet nsMap (strDropRight (strDrop f (loc.length + 1)) 5) d)
        | .error e => Except.error e
      else flatScan fs inputDir loc rest nsMap

/-- The per-locale body of `loadLayout`: try the nested convention inside
`try { } catch {}`; when no nested file loaded (`found` false), walk the
flat convention, continuing from the same (possibly empty) map. -/
def loadLocaleNs (fs : FS) (inputDir loc : String) : Except GenErr NsMap :=
  let nested := joinP inputDir loc
  let nr :=
    if fs.isDir nested then nestedScan fs nested (fs.listing nested) [] false
    else ([], false)
  if nr.2 then Except.ok nr.1
  else flatScan fs inputDir loc (fs.listing inputDir) nr.1

/-- Layout: locale → namespace → dictionary, insertion ordered. -/
abbrev InputLayout : Type := List (String × NsMap)

/-- The loop of `loadLayout` over the requested locales. -/
def loadLayoutGo (fs : FS) (inputDir : String) :
    List String → InputLayout → Except GenErr InputLayout
  | [], acc => Except.ok acc
  | loc :: rest, acc =>
      match loadLocaleNs fs inputDir loc with
      | .error e => Except.error e
      | .ok nsMap => loadLayoutGo fs inputDir rest (alSet acc loc nsMap)

/-- `loadLayout(inputDir, locales)`. -/
def loadLayout (fs : FS) (inputDir : String) (locales : List String) :
    Except GenErr InputLayout :=
  loadLayoutGo fs inputDir locales []

/-! ### `apps/gen` — `validateAndOrder` -/

/-- One `ValidationIssue` record (field `ns` is the source's
`namespace`). -/
structure ValidationIssue : Type where
  locale : String
  ns : String
  message : String
  deriving DecidableEq

/-- Result of `validateAndOrder`. -/
structure GenerateResult : Type where
  namespaces : List String
  orderByNs : List (String × List String)
  issues : List ValidationIssue
  deriving DecidableEq

/-- Insert into a `≤`-sorted list of strings. -/
def insertSorted (a : String) : List String → List String
  | [] => [a]
  | b :: rest => if a ≤ b then a :: b :: rest else b :: insertSorted a rest

/-- `Array.prototype.sort()` on string keys: lexicographic sort. -/
def sortStr : List String → List String
  | [] => []
  | a :: rest => insertSorted a (sortStr rest)

/-- JS string interpolation of a possibly-`undefined` value. -/
def jsShow : Option String → String
  | none => "undefined"
  | some s => s

/-- The `Key count mismatch` message. -/
def countMsg (got expected : Nat) : String :=
  "Key count mismatch: got " ++ toString got ++ ", expected " ++ toString expected

/-- The `Order mismatch` message (`keys[i]` may be `undefined`). -/
def orderMsg (i : Nat) (k : Option String) (rk : String) : String :=
  "Order mismatch at index " ++ toString i ++ ": '" ++ jsShow k ++ "' vs '" ++ rk ++ "'"

/-- The index loop `for (let i = 0; i < refKeys.length; i++)` comparing
`keys[i] !== refKeys[i]`, emitting one issue at the first mismatch and
breaking.  `i` is the current index, the second list the remaining
reference keys from position `i` on. -/
def orderScan (loc ns : String) (keys : List String) :
    Nat → List String → List ValidationIssue
  | _, [] => []
  | i, rk :: rest =>
      if keys.get? i = some rk then orderScan loc ns keys (i + 1) rest
      else [⟨loc, ns, orderMsg i (keys.get? i) rk⟩]

/-- The issues the inner loop pushes for one (locale, namespace) pair. -/
def checkLocaleNs (ns : String) (refKeys : List String)
    (entry : String × NsMap) : List ValidationIssue :=
  match alGet entry.2 ns with
  | none => [⟨entry.1, ns, "Missing namespace"⟩]
  | some d =>
      let keys := d.map Prod.fst
      (if keys.length ≠ refKeys.length
        then [⟨entry.1, ns, countMsg keys.length refKeys.length⟩] else [])
      ++ orderScan entry.1 ns keys 0 refKeys

/-- `refDict ? Object.keys(refDict) : []` for a namespace. -/
def refKeysOf (ref : NsMap) (ns : String) : List String :=
  match alGet ref ns with
  | some d => d.map Prod.fst
  | none => []

/-- `validateAndOrder(layout, refLocale)`: namespaces are the reference
locale's, sorted; the canonical order per namespace is the reference
dictionary's key order; issues are collected namespace-major, then in
layout order, as the source's nested loops push them. -/
def validateAndOrder (layout : InputLayout) (refLocale : String) :
    Except String GenerateResult :=
  match alGet layout refLocale with
  | none => Except.error ("Reference locale '" ++ refLocale ++ "' not found in input")
  | some ref =>
      let namespaces := sortStr (ref.map Prod.fst)
      Except.ok
        { namespaces := namespaces
          orderByNs := namespaces.map (fun ns => (ns, refKeysOf ref ns))
          issues := namespaces.flatMap (fun ns =>
            layout.flatMap (fun entry => checkLocaleNs ns (refKeysOf ref ns) entry)) }

/-! ## Claims -/

/-- **C9.**  For every readonly string array `arr` and every integer `id`,
the indexed translator created by `createTA(arr)` never throws: it is a
total function; for `id` within bounds it returns the array element at
`id`, and for an out-of-range `id` (negative or past the end) it yields
the explicit absent result (`undefined`, modelled `none`), not an error.
The solid-x `t` is the same lookup on the instance's current array. -/
theorem claim_C9 (arr : ADict) (id : Int) :
    (∀ h : id.toNat < arr.length, 0 ≤ id → createTA arr id = some (arr.get ⟨id.toNat, h⟩))
    ∧ ((id < 0 ∨ (arr.length : Int) ≤ id) → createTA arr id = none)
    ∧ (∀ s : SolidState, solidT s id = createTA s.currentDict id) := by
  refine ⟨?_, ?_, fun s => rfl⟩
  · intro h hpos
    simp [createTA, jsIndex, hpos, List.get?_eq_get h]
  · intro hout
    rcases hout with hneg | hbig
    · have : ¬ (0 ≤ id) := not_le.mpr hneg
      simp [createTA, jsIndex, this]
    · rcases le_or_lt 0 id with hpos | hneg
      · have hlen : arr.length ≤ id.toNat := by
          omega
        simp only [createTA, jsIndex, hpos, if_true, List.get?_eq_none]
        exact hlen
      · have : ¬ (0 ≤ id) := not_le.mpr hneg
        simp [createTA, jsIndex, this]

/-- Witness for C9 at the spec's own example: `["OK","Cancel"]`, ids 0 and 5. -/
theorem claim_C9_witness :
    createTA ["OK", "Cancel"] 0 = some "OK" ∧ createTA ["OK", "Cancel"] 5 = none := by
  constructor
  · have h := (claim_C9 ["OK", "Cancel"] 0).1 (by decide) (by decide)
    simpa using h
  · exact (claim_C9 ["OK", "Cancel"] 5).2.1 (Or.inr (by decide))

/-- **C5.**  For every locale `l`, `preload(l)` leaves the current
dictionary snapshot and the current locale identity unchanged, whether the
underlying load succeeds or fails (the loader oracle `ld` and cache mode
`dc` are universally quantified, and `preload` touches neither signal on
any path). -/
theorem claim_C5 (ld : Nat → Except Nat ADict) (dc : Bool) (s : SolidState)
    (l : String) :
    (solidPreload ld dc s l).1.locale = s.locale ∧
    (solidPreload ld dc s l).1.currentDict = s.currentDict := by
  unfold solidPreload
  cases h : (if dc then none else alGet s.cache l) <;> simp

/-- The loader of the C2 scenario: the first invocation rejects (error
code 7), every later one resolves. -/
def c2Loader : Nat → Except Nat ADict :=
  fun n => if n = 0 then Except.error 7 else Except.ok ["Oke"]

/-- State after the first `preload("id")` on a fresh solid-x instance
(constructed with an `initialDict`, default cache mode) whose loader
rejects that first call. -/
def c2S1 : SolidState :=
  (solidPreload c2Loader false
    (createSolid c2Loader ⟨"en", some ["OK"], false⟩) "id").1

/-- **C2** (code bug).  After `preload("id")`'s loader rejects, the failed
entry is NOT removed: the cache still maps `"id"` to the rejected promise
(id 0), and the immediately following `preload("id")` returns that same
rejected promise without invoking the loader again (the loader log stays
at one invocation) — so the second `preload` observes the same rejection
instead of retrying.  This contradicts the claim and the repository's own
test `"cache does not poison on loader rejection"`. -/
theorem claim_C2 :
    alGet c2S1.cache "id" = some 0 ∧
    c2S1.promises.get? 0 = some (Except.error 7) ∧
    solidPreload c2Loader false c2S1 "id" = (c2S1, 0) ∧
    c2S1.loaderLog = ["id"] :=
  ⟨rfl, rfl, rfl, rfl⟩

/-- **C7.**  Reference keys `["x","y","z"]`, target locale keys
`["x","z","y"]` (any values): the run emits exactly one issue for the
target pair — a key-order mismatch at index 1 reporting the two differing
names — and no further-index issue, while the reference locale itself
checks clean. -/
theorem claim_C7 (a b c d e f : String) :
    validateAndOrder
      [("en", [("ns", [("x", a), ("y", b), ("z", c)])]),
       ("fr", [("ns", [("x", d), ("z", e), ("y", f)])])] "en"
    = Except.ok
        { namespaces := ["ns"]
          orderByNs := [("ns", ["x", "y", "z"])]
          issues := [⟨"fr", "ns", "Order mismatch at index 1: 'z' vs 'y'"⟩] } := rfl

/-- The internal `load` never touches the locale signal, the change log or
the error log, on any path. -/
theorem solidLoad_frame (ld : Nat → Except Nat ADict) (dc : Bool)
    (s : SolidState) (l : String) :
    (solidLoad ld dc s l).1.locale = s.locale ∧
    (solidLoad ld dc s l).1.changeLog = s.changeLog ∧
    (solidLoad ld dc s l).1.errorLog = s.errorLog := by
  unfold solidLoad
  split
  · unfold awaitP; split <;> simp [setDictInternal]
  · unfold invokeLoader; split <;> simp [setDictInternal]

/-- When the internal `load` rejects, the dictionary snapshot is
untouched: the rejection propagates before `setDictInternal` runs. -/
theorem solidLoad_error_dict (ld : Nat → Except Nat ADict) (dc : Bool)
    (s : SolidState) (l : String) (e : Nat) :
    (solidLoad ld dc s l).2 = Except.error e →
    (solidLoad ld dc s l).1.currentDict = s.currentDict := by
  unfold solidLoad
  split
  · unfold awaitP; split
    · intro hc; simp at hc
    · intro _; rfl
  · unfold invokeLoader; split
    · intro hc; simp at hc
    · intro _; rfl

/-- **C4.**  If the load triggered by `setLocale(l)` fails, the observed
locale identity is `l` (committed synchronously at the call, not rolled
back), the dictionary snapshot equals its prior value, `onLocaleChange`
fired with `l` and `onError` fired with the error and locale, and the call
rejects (hypothesis `h` records it settling with `Except.error e`). -/
theorem claim_C4 (ld : Nat → Except Nat ADict) (dc : Bool) (s : SolidState)
    (l : String) (s' : SolidState) (e : Nat)
    (h : solidSet ld dc s l = (s', Except.error e)) :
    s'.locale = l ∧ s'.currentDict = s.currentDict ∧
    s'.changeLog = s.changeLog ++ [l] ∧ s'.errorLog = s.errorLog ++ [(e, l)] := by
  simp only [solidSet] at h
  cases hr2 : (solidLoad ld dc
      { s with locale := l, changeLog := s.changeLog ++ [l] } l).2 with
  | ok d =>
      rw [hr2] at h
      simp at h
  | error e2 =>
      rw [hr2] at h
      simp only [Prod.mk.injEq, Except.error.injEq] at h
      obtain ⟨hs', he⟩ := h
      have hf := solidLoad_frame ld dc
        { s with locale := l, changeLog := s.changeLog ++ [l] } l
      have hdict := solidLoad_error_dict ld dc
        { s with locale := l, changeLog := s.changeLog ++ [l] } l e2 hr2
      subst he
      refine ⟨?_, ?_, ?_, ?_⟩
      · rw [← hs']; simpa using hf.1
      · rw [← hs']; simpa using hdict
      · rw [← hs']; simpa using hf.2.1
      · rw [← hs']
        simpa using hf.2.2

/-- Witness for C4: a loader that rejects with code 7; `setLocale "fr"`
from a settled instance leaves the snapshot `["OK"]`, commits locale
`"fr"`, fires both hooks, and rejects. -/
theorem claim_C4_witness :
    (⟨"fr", ["OK"], [("fr", 0)], [Except.error 7], ["fr"], ["fr"],
        [(7, "fr")]⟩ : SolidState).locale = "fr" ∧
    (⟨"fr", ["OK"], [("fr", 0)], [Except.error 7], ["fr"], ["fr"],
        [(7, "fr")]⟩ : SolidState).currentDict =
      (⟨"en", ["OK"], [], [], [], [], []⟩ : SolidState).currentDict ∧
    (⟨"fr", ["OK"], [("fr", 0)], [Except.error 7], ["fr"], ["fr"],
        [(7, "fr")]⟩ : SolidState).changeLog =
      (⟨"en", ["OK"], [], [], [], [], []⟩ : SolidState).changeLog ++ ["fr"] ∧
    (⟨"fr", ["OK"], [("fr", 0)], [Except.error 7], ["fr"], ["fr"],
        [(7, "fr")]⟩ : SolidState).errorLog =
      (⟨"en", ["OK"], [], [], [], [], []⟩ : SolidState).errorLog ++ [(7, "fr")] :=
  claim_C4 (fun _ => Except.error 7) false ⟨"en", ["OK"], [], [], [], [], []⟩
    "fr" _ 7 rfl

theorem set_append_len {α : Type} (l : List α) (a b : α) :
    (l ++ [a]).set l.length b = l ++ [b] := by
  induction l with
  | nil => rfl
  | cons hd tl ih => simp [List.set, ih]

theorem get?_append_len {α : Type} (l : List α) (a : α) :
    (l ++ [a]).get? l.length = some a := by
  induction l with
  | nil => rfl
  | cons hd tl ih => simp [ih]

/-- `preload` on an uncached key: one loader invocation, the fresh promise
cached under the key. -/
theorem solidPreload_uncached (ld : Nat → Except Nat ADict) (t : SolidState)
    (K : String) (h : alGet t.cache K = none) :
    solidPreload ld false t K =
      ({ t with
          cache := alSet t.cache K t.promises.length,
          promises := t.promises ++ [ld t.loaderLog.length],
          loaderLog := t.loaderLog ++ [K] }, t.promises.length) := by
  simp [solidPreload, h]

/-- **C1.**  For every key `K`, all `load(K)` calls on one core instance,
and all `preload(K)` calls on one solid-x instance, issued before the
first call's loader settles (`n` consecutive synchronous calls with no
settlement step in between), invoke the caller-supplied loader exactly
once — the loader log grows by exactly one entry — and every one of the
`n` calls receives the same promise id (`List.replicate`), hence all
settle with that one promise's eventual result or error. -/
theorem claim_C1 (ru : String → String) (ld : Nat → Except Nat ADict)
    (s : CoreState) (t : SolidState) (K : String) (n : Nat)
    (hs : alGet s.cache K = none) (ht : alGet t.cache K = none) (hn : 0 < n) :
    ((coreLoadN ru s K n).1.loaderLog = s.loaderLog ++ [ru K] ∧
      (coreLoadN ru s K n).2 = List.replicate n s.promises.length) ∧
    ((solidPreloadN ld false t K n).1.loaderLog = t.loaderLog ++ [K] ∧
      (solidPreloadN ld false t K n).2 = List.replicate n t.promises.length) := by
  obtain ⟨m, rfl⟩ : ∃ m, n = m + 1 := ⟨n - 1, (Nat.succ_pred_eq_of_pos hn).symm⟩
  constructor
  · have h1 := coreLoad_uncached ru s K hs
    have hc : alGet (alSet s.cache K s.promises.length) K = some s.promises.length :=
      alGet_alSet_self _ _ _
    have h2 := coreLoadN_cached ru
      ⟨alSet s.cache K s.promises.length, s.promises ++ [PromiseState.pending],
        s.loaderLog ++ [ru K]⟩ K s.promises.length hc m
    refine ⟨?_, ?_⟩ <;> simp [coreLoadN, h1, h2, List.replicate]
  · have h1 := solidPreload_uncached ld t K ht
    have hc : alGet (alSet t.cache K t.promises.length) K = some t.promises.length :=
      alGet_alSet_self _ _ _
    have h2 := solidPreloadN_cached ld
      { t with
          cache := alSet t.cache K t.promises.length,
          promises := t.promises ++ [ld t.loaderLog.length],
          loaderLog := t.loaderLog ++ [K] } K t.promises.length hc m
    refine ⟨?_, ?_⟩ <;> simp [solidPreloadN, h1, h2, List.replicate]

/-- Witness for C1: two back-to-back `load("id")` on a fresh core instance
and two back-to-back `preload("id")` on a settled solid-x instance: one
loader invocation each, both callers sharing promise 0. -/
theorem claim_C1_witness :
    ((coreLoadN (fun l => l) coreInit "id" 2).1.loaderLog = ["id"] ∧
      (coreLoadN (fun l => l) coreInit "id" 2).2 = [0, 0]) ∧
    ((solidPreloadN (fun _ => Except.ok ["x"]) false
        ⟨"en", ["OK"], [], [], [], [], []⟩ "id" 2).1.loaderLog = ["id"] ∧
      (solidPreloadN (fun _ => Except.ok ["x"]) false
        ⟨"en", ["OK"], [], [], [], [], []⟩ "id" 2).2 = [0, 0]) :=
  claim_C1 (fun l => l) (fun _ => Except.ok ["x"]) coreInit
    ⟨"en", ["OK"], [], [], [], [], []⟩ "id" 2 rfl rfl (by decide)

/-- **C3.**  After `load(K)` on a core instance rejects, the cache entry
for `K` is already removed in the very state in which the rejection is
observable (`sRej`), and the immediately following `load(K)` invokes the
loader again (second log entry), under a fresh promise (`r2.2 ≠ r1.2`),
which can then succeed: it resolves with the new dictionary and stays
cached. -/
theorem claim_C3 (ru : String → String) (s : CoreState) (K : String)
    (e : Nat) (d : LocaleDict) (h : alGet s.cache K = none) :
    let r1 := coreLoad ru s K
    let sRej := coreSettle r1.1 K r1.2 (Except.error e)
    let r2 := coreLoad ru sRej K
    let sOk := coreSettle r2.1 K r2.2 (Except.ok d)
    alGet sRej.cache K = none ∧
    sRej.promises.get? r1.2 = some (PromiseState.rejected e) ∧
    r2.1.loaderLog = s.loaderLog ++ [ru K, ru K] ∧
    r2.2 ≠ r1.2 ∧
    sOk.promises.get? r2.2 = some (PromiseState.resolved d) ∧
    alGet sOk.cache K = some r2.2 := by
  have h1 := coreLoad_uncached ru s K h
  simp only [h1, coreSettle]
  have hdel : alGet (alDelete (alSet s.cache K s.promises.length) K) K = none :=
    alGet_alDelete_self _ _
  have hset1 :
      (s.promises ++ [PromiseState.pending]).set s.promises.length
        (PromiseState.rejected e) = s.promises ++ [PromiseState.rejected e] :=
    set_append_len _ _ _
  have h2 := coreLoad_uncached ru
    ⟨alDelete (alSet s.cache K s.promises.length) K,
      (s.promises ++ [PromiseState.pending]).set s.promises.length
        (PromiseState.rejected e),
      s.loaderLog ++ [ru K]⟩ K hdel
  simp only [h2, coreSettle]
  refine ⟨hdel, ?_, ?_, ?_, ?_, ?_⟩
  · rw [hset1]; exact get?_append_len _ _
  · simp
  · simp [hset1]
  · rw [hset1, set_append_len]
    have := get?_append_len (s.promises ++ [PromiseState.rejected e])
      (PromiseState.resolved d)
    simpa [hset1] using this
  · simpa [hset1] using alGet_alSet_self
      (alDelete (alSet s.cache K s.promises.length) K) K
      (s.promises ++ [PromiseState.rejected e]).length

/-- Witness for C3: a fresh core instance; the first `load("en")` settles
rejected (error 7), the retry settles resolved. -/
theorem claim_C3_witness :
    alGet (coreSettle (coreLoad (fun l => l) coreInit "en").1 "en"
      (coreLoad (fun l => l) coreInit "en").2 (Except.error 7)).cache "en" = none ∧
    (coreSettle (coreLoad (fun l => l) coreInit "en").1 "en"
      (coreLoad (fun l => l) coreInit "en").2 (Except.error 7)).promises.get?
        (coreLoad (fun l => l) coreInit "en").2 = some (PromiseState.rejected 7) ∧
    (coreLoad (fun l => l) (coreSettle (coreLoad (fun l => l) coreInit "en").1 "en"
      (coreLoad (fun l => l) coreInit "en").2 (Except.error 7)) "en").1.loaderLog
        = ["en", "en"] ∧
    (coreLoad (fun l => l) (coreSettle (coreLoad (fun l => l) coreInit "en").1 "en"
      (coreLoad (fun l => l) coreInit "en").2 (Except.error 7)) "en").2 ≠
      (coreLoad (fun l => l) coreInit "en").2 ∧
    (coreSettle (coreLoad (fun l => l) (coreSettle (coreLoad (fun l => l) coreInit "en").1
        "en" (coreLoad (fun l => l) coreInit "en").2 (Except.error 7)) "en").1 "en"
      (coreLoad (fun l => l) (coreSettle (coreLoad (fun l => l) coreInit "en").1 "en"
        (coreLoad (fun l => l) coreInit "en").2 (Except.error 7)) "en").2
      (Except.ok [("a", "A")])).promises.get?
        (coreLoad (fun l => l) (coreSettle (coreLoad (fun l => l) coreInit "en").1 "en"
          (coreLoad (fun l => l) coreInit "en").2 (Except.error 7)) "en").2
      = some (PromiseState.resolved [("a", "A")]) ∧
    alGet (coreSettle (coreLoad (fun l => l) (coreSettle (coreLoad (fun l => l) coreInit
        "en").1 "en" (coreLoad (fun l => l) coreInit "en").2 (Except.error 7)) "en").1 "en"
      (coreLoad (fun l => l) (coreSettle (coreLoad (fun l => l) coreInit "en").1 "en"
        (coreLoad (fun l => l) coreInit "en").2 (Except.error 7)) "en").2
      (Except.ok [("a", "A")])).cache "en"
      = some (coreLoad (fun l => l) (coreSettle (coreLoad (fun l => l) coreInit "en").1
          "en" (coreLoad (fun l => l) coreInit "en").2 (Except.error 7)) "en").2 :=
  claim_C3 (fun l => l) coreInit "en" 7 [("a", "A")] rfl

/-! ### Facts about the validator -/

theorem insertSorted_perm (a : String) (l : List String) :
    List.Perm (insertSorted a l) (a :: l) := by
  induction l with
  | nil => exact List.Perm.refl _
  | cons b rest ih =>
    by_cases h : a ≤ b
    · simp [insertSorted, h]
    · simp only [insertSorted, h, if_false]
      exact List.Perm.trans (List.Perm.cons _ ih) (List.Perm.swap _ _ _)

theorem sortStr_perm (l : List String) : List.Perm (sortStr l) l := by
  induction l with
  | nil => exact List.Perm.refl _
  | cons a rest ih =>
    exact List.Perm.trans (insertSorted_perm _ _) (List.Perm.cons _ ih)

theorem pairwise_insertSorted (a : String) (l : List String)
    (h : l.Pairwise (· ≤ ·)) : (insertSorted a l).Pairwise (· ≤ ·) := by
  induction l with
  | nil => simp [insertSorted]
  | cons b rest ih =>
    rw [List.pairwise_cons] at h
    by_cases hab : a ≤ b
    · simp only [insertSorted, hab, if_true]
      rw [List.pairwise_cons]
      refine ⟨?_, List.pairwise_cons.mpr h⟩
      intro x hx
      rcases List.mem_cons.mp hx with rfl | hxr
      · exact hab
      · exact le_trans hab (h.1 x hxr)
    · have hba : b ≤ a := le_of_not_le hab
      simp only [insertSorted, hab, if_false]
      rw [List.pairwise_cons]
      refine ⟨?_, ih h.2⟩
      intro x hx
      rcases List.mem_cons.mp ((insertSorted_perm a rest).mem_iff.mp hx) with rfl | hxr
      · exact hba
      · exact h.1 x hxr

theorem pairwise_sortStr (l : List String) : (sortStr l).Pairwise (· ≤ ·) := by
  induction l with
  | nil => simp [sortStr]
  | cons a rest ih => exact pairwise_insertSorted a _ ih

theorem alGet_mem_keys {α β : Type} [BEq α] [LawfulBEq α]
    (m : List (α × β)) (k : α) (v : β) (h : alGet m k = some v) :
    k ∈ m.map Prod.fst := by
  induction m with
  | nil => simp [alGet] at h
  | cons hd tl ih =>
    obtain ⟨k', v'⟩ := hd
    by_cases hk : k' == k
    · simp [eq_of_beq hk]
    · simp only [alGet, hk, Bool.false_eq_true, if_false] at h
      exact List.mem_cons_of_mem _ (ih h)

/-- Every issue the index loop pushes carries the pair's locale and
namespace. -/
theorem orderScan_fields (loc ns : String) (keys : List String) :
    ∀ (i : Nat) (rks : List String) (issue : ValidationIssue),
      issue ∈ orderScan loc ns keys i rks →
      issue.locale = loc ∧ issue.ns = ns := by
  intro i rks
  induction rks generalizing i with
  | nil => intro issue h; simp [orderScan] at h
  | cons rk rest ih =>
    intro issue h
    by_cases hc : keys.get? i = some rk
    · simp only [orderScan, if_pos hc] at h
      exact ih (i + 1) issue h
    · simp only [orderScan, if_neg hc, List.mem_singleton] at h
      subst h
      exact ⟨rfl, rfl⟩

/-- Every issue pushed for a (locale, namespace) pair carries that locale
and namespace. -/
theorem checkLocaleNs_fields (ns : String) (refKeys : List String)
    (entry : String × NsMap) (issue : ValidationIssue)
    (h : issue ∈ checkLocaleNs ns refKeys entry) :
    issue.locale = entry.1 ∧ issue.ns = ns := by
  unfold checkLocaleNs at h
  split at h
  · simp only [List.mem_singleton] at h
    subst h
    exact ⟨rfl, rfl⟩
  · rcases List.mem_append.mp h with h1 | h2
    · split at h1
      · simp only [List.mem_singleton] at h1
        subst h1
        exact ⟨rfl, rfl⟩
      · simp at h1
    · exact orderScan_fields _ _ _ _ _ _ h2

/-- The explicit shape of a successful `validateAndOrder` run. -/
theorem validateAndOrder_ok (layout : InputLayout) (refLocale : String)
    (ref : NsMap) (h : alGet layout refLocale = some ref) :
    validateAndOrder layout refLocale = Except.ok
      { namespaces := sortStr (ref.map Prod.fst)
        orderByNs := (sortStr (ref.map Prod.fst)).map (fun ns => (ns, refKeysOf ref ns))
        issues := (sortStr (ref.map Prod.fst)).flatMap (fun ns =>
          layout.flatMap (fun entry => checkLocaleNs ns (refKeysOf ref ns) entry)) } := by
  simp [validateAndOrder, h]

/-- **C8.**  The output namespace list of `validateAndOrder` is exactly
the reference locale's namespace list sorted lexicographically (same
members, `≤`-sorted); a namespace `ns` absent from the reference never
appears in the output namespace list, and no validation issue mentions
it — whether or not some non-reference locale has it. -/
theorem claim_C8 (layout : InputLayout) (refLocale : String) (ref : NsMap)
    (res : GenerateResult) (ns : String)
    (href : alGet layout refLocale = some ref)
    (hres : validateAndOrder layout refLocale = Except.ok res)
    (hns : ns ∉ ref.map Prod.fst) :
    res.namespaces = sortStr (ref.map Prod.fst) ∧
    (∀ a, a ∈ res.namespaces ↔ a ∈ ref.map Prod.fst) ∧
    res.namespaces.Pairwise (· ≤ ·) ∧
    ns ∉ res.namespaces ∧
    (∀ i ∈ res.issues, i.ns ≠ ns) := by
  rw [validateAndOrder_ok layout refLocale ref href] at hres
  injection hres with hres
  subst hres
  refine ⟨rfl, fun a => (sortStr_perm _).mem_iff, pairwise_sortStr _, ?_, ?_⟩
  · intro hc
    exact hns ((sortStr_perm _).mem_iff.mp hc)
  · intro i hi
    obtain ⟨n, hn, hi2⟩ := List.mem_flatMap.mp hi
    obtain ⟨entry, _, hi3⟩ := List.mem_flatMap.mp hi2
    have hf := (checkLocaleNs_fields n _ entry i hi3).2
    intro hc
    rw [hf] at hc
    subst hc
    exact hns ((sortStr_perm _).mem_iff.mp hn)

/-- Witness for C8: reference `en` has namespace `a`; `fr` has an extra
namespace `zz` — the output list is `["a"]` and no issue at all is
emitted. -/
theorem claim_C8_witness :
    (["a"] : List String) = sortStr ["a"] ∧
    (∀ x, x ∈ (["a"] : List String) ↔ x ∈ (["a"] : List String)) ∧
    (["a"] : List String).Pairwise (· ≤ ·) ∧
    "zz" ∉ (["a"] : List String) ∧
    (∀ i ∈ ([] : List ValidationIssue), i.ns ≠ "zz") := by
  exact claim_C8
    [("en", [("a", [])]), ("fr", [("a", []), ("zz", [("k", "v")])])]
    "en" [("a", [])]
    { namespaces := ["a"]
      orderByNs := [("a", [])]
      issues := [] }
    "zz" rfl (by rfl) (by decide)

theorem filter_flatMap {α : Type} (l : List α) (g : α → List ValidationIssue)
    (p : ValidationIssue → Bool) :
    (l.flatMap g).filter p = l.flatMap (fun x => (g x).filter p) := by
  induction l with
  | nil => rfl
  | cons hd tl ih => simp [List.filter_append, ih]

theorem flatMap_filter_nil {α : Type} (l : List α) (g : α → List ValidationIssue)
    (p : ValidationIssue → Bool) (h : ∀ y ∈ l, (g y).filter p = []) :
    (l.flatMap g).filter p = [] := by
  induction l with
  | nil => rfl
  | cons hd tl ih =>
    simp only [List.flatMap_cons, List.filter_append]
    rw [h hd (List.mem_cons_self _ _), ih (fun y hy => h y (List.mem_cons_of_mem _ hy))]
    rfl

/-- When the keys of `l` are distinct and only `x`'s contribution survives
the filter, filtering the concatenation is filtering `x`'s list. -/
theorem flatMap_filter_single {α : Type} (key : α → String) (l : List α)
    (g : α → List ValidationIssue) (p : ValidationIssue → Bool) (x : α)
    (hx : x ∈ l) (hnd : (l.map key).Nodup)
    (hothers : ∀ y ∈ l, key y ≠ key x → (g y).filter p = []) :
    (l.flatMap g).filter p = (g x).filter p := by
  induction l with
  | nil => cases hx
  | cons hd tl ih =>
    simp only [List.map_cons, List.nodup_cons] at hnd
    simp only [List.flatMap_cons, List.filter_append]
    rcases List.mem_cons.mp hx with rfl | hxtl
    · have htl : (tl.flatMap g).filter p = [] := by
        apply flatMap_filter_nil
        intro y hy
        apply hothers y (List.mem_cons_of_mem _ hy)
        intro hk
        exact hnd.1 (hk ▸ List.mem_map_of_mem key hy)
      rw [htl, List.append_nil]
    · have hhd : (g hd).filter p = [] := by
        apply hothers hd (List.mem_cons_self _ _)
        intro hk
        exact hnd.1 (by rw [hk]; exact List.mem_map_of_mem key hxtl)
      rw [hhd, List.nil_append]
      exact ih hxtl hnd.2 (fun y hy hne => hothers y (List.mem_cons_of_mem _ hy) hne)

theorem take_get?_eq {α : Type} (l : List α) :
    ∀ (n j : Nat), j < n → (l.take n).get? j = l.get? j := by
  induction l with
  | nil => intro n j _; simp
  | cons hd tl ih =>
    intro n j hj
    cases n with
    | zero => omega
    | succ n =>
      cases j with
      | zero => rfl
      | succ j => simpa using ih n j (by omega)

/-- When the target's keys run out at index `keys.length` while reference
keys remain, the index loop walks the common prefix and emits exactly one
issue, at index `keys.length`, comparing the absent key (`undefined`)
against the reference key there. -/
theorem orderScan_exhaust (loc ns : String) (keys : List String) :
    ∀ (k i : Nat) (rks : List String) (rk : String),
      keys.length = i + k →
      (∀ j, j < k → keys.get? (i + j) = rks.get? j) →
      rks.get? k = some rk →
      orderScan loc ns keys i rks = [⟨loc, ns, orderMsg keys.length none rk⟩] := by
  intro k
  induction k with
  | zero =>
    intro i rks rk hlen hj hrk
    cases rks with
    | nil => simp at hrk
    | cons r0 rest =>
      have hr0 : r0 = rk := by simpa using hrk
      subst hr0
      have hnone : keys.get? i = none := List.get?_eq_none.mpr (by omega)
      simp only [orderScan, hnone]
      rw [if_neg (show ¬ ((none : Option String) = some r0) by simp)]
      have hi : i = keys.length := by omega
      rw [hi]
  | succ k ih =>
    intro i rks rk hlen hj hrk
    cases rks with
    | nil => simp at hrk
    | cons r0 rest =>
      have h0 : keys.get? i = some r0 := by
        have := hj 0 (Nat.succ_pos k)
        simpa using this
      simp only [orderScan, if_pos h0]
      apply ih (i + 1) rest rk
      · omega
      · intro j hjk
        have hstep := hj (j + 1) (by omega)
        have h2 : i + (j + 1) = i + 1 + j := by omega
        rw [h2] at hstep
        simpa using hstep
      · simpa using hrk

/-- The two issues the inner loop pushes for a pair whose key list is a
proper prefix of the reference order. -/
theorem checkLocaleNs_prefix (ns loc : String) (nsm : NsMap) (d : LocaleDict)
    (refKeys : List String) (rk : String)
    (hd : alGet nsm ns = some d)
    (hpre : d.map Prod.fst = refKeys.take d.length)
    (hlt : d.length < refKeys.length)
    (hrk : refKeys.get? d.length = some rk) :
    checkLocaleNs ns refKeys (loc, nsm) =
      [⟨loc, ns, countMsg d.length refKeys.length⟩,
       ⟨loc, ns, orderMsg d.length none rk⟩] := by
  unfold checkLocaleNs
  simp only [hd]
  have hklen : (d.map Prod.fst).length = d.length := List.length_map _ _
  have hne : (d.map Prod.fst).length ≠ refKeys.length := by rw [hklen]; omega
  rw [if_pos hne]
  have hscan := orderScan_exhaust loc ns (d.map Prod.fst) (d.map Prod.fst).length 0
    refKeys rk (by omega) ?_ ?_
  · rw [hscan, hklen]
    rfl
  · intro j hjk
    rw [hpre]
    simp only [Nat.zero_add]
    exact take_get?_eq refKeys d.length j (by omega)
  · rw [hklen]
    exact hrk

/-- **C10.**  For every (locale, namespace) pair whose key list is a
strict proper prefix of the reference locale's canonical key order,
`validateAndOrder` emits exactly two issues for that pair: one key-count
mismatch, and one key-order mismatch at index equal to the locale's key
count, comparing an absent key (`'undefined'`) against the reference key
at that index.  (The `Nodup` hypotheses state that a JS `Map` never holds
two entries under one key.) -/
theorem claim_C10 (layout : InputLayout) (refLocale loc ns : String)
    (ref nsm : NsMap) (d refD : LocaleDict) (rk : String) (res : GenerateResult)
    (href : alGet layout refLocale = some ref)
    (hres : validateAndOrder layout refLocale = Except.ok res)
    (hndLay : (layout.map Prod.fst).Nodup)
    (hndRef : (ref.map Prod.fst).Nodup)
    (hmem : (loc, nsm) ∈ layout)
    (hd : alGet nsm ns = some d)
    (hrefd : alGet ref ns = some refD)
    (hpre : d.map Prod.fst = (refD.map Prod.fst).take d.length)
    (hlt : d.length < refD.length)
    (hrk : (refD.map Prod.fst).get? d.length = some rk) :
    res.issues.filter (fun i => i.locale == loc && i.ns == ns) =
      [⟨loc, ns, countMsg d.length refD.length⟩,
       ⟨loc, ns, orderMsg d.length none rk⟩] := by
  rw [validateAndOrder_ok layout refLocale ref href] at hres
  injection hres with hres
  subst hres
  have hrkeys : refKeysOf ref ns = refD.map Prod.fst := by
    simp [refKeysOf, hrefd]
  have hmemns : ns ∈ sortStr (ref.map Prod.fst) :=
    (sortStr_perm _).mem_iff.mpr (alGet_mem_keys _ _ _ hrefd)
  have hndsort : (sortStr (ref.map Prod.fst)).Nodup :=
    ((sortStr_perm _).nodup_iff).mpr hndRef
  have hothers1 : ∀ y ∈ sortStr (ref.map Prod.fst), y ≠ ns →
      (layout.flatMap (fun entry => checkLocaleNs y (refKeysOf ref y) entry)).filter
        (fun i => i.locale == loc && i.ns == ns) = [] := by
    intro n' _ hne
    apply flatMap_filter_nil
    intro entry _
    apply List.filter_eq_nil_iff.mpr
    intro issue hissue
    have hf := checkLocaleNs_fields n' _ entry issue hissue
    simp only [hf.2, Bool.and_eq_true, beq_iff_eq, not_and]
    intro _ hcc
    exact hne hcc
  have hothers2 : ∀ entry ∈ layout, entry.1 ≠ loc →
      (checkLocaleNs ns (refKeysOf ref ns) entry).filter
        (fun i => i.locale == loc && i.ns == ns) = [] := by
    intro entry _ hne
    apply List.filter_eq_nil_iff.mpr
    intro issue hissue
    have hf := checkLocaleNs_fields ns _ entry issue hissue
    simp only [hf.1, Bool.and_eq_true, beq_iff_eq, not_and]
    intro hcc _
    exact hne hcc
  show ((sortStr (ref.map Prod.fst)).flatMap (fun n =>
      layout.flatMap (fun entry => checkLocaleNs n (refKeysOf ref n) entry))).filter
        (fun i => i.locale == loc && i.ns == ns) = _
  rw [flatMap_filter_single (fun n => n) _ _ _ ns hmemns (by simpa using hndsort) hothers1,
    flatMap_filter_single Prod.fst layout _ _ (loc, nsm) hmem hndLay hothers2,
    hrkeys,
    checkLocaleNs_prefix ns loc nsm d (refD.map Prod.fst) rk hd hpre
      (by simpa using hlt) hrk]
  simp

/-- Witness for C10: reference keys `x, y, z`, locale `fr` has only `x` —
the run emits for `(fr, ns)` exactly the count issue and the order issue
at index 1 against `'undefined'`. -/
theorem claim_C10_witness :
    ([⟨"fr", "ns", "Key count mismatch: got 1, expected 3"⟩,
      ⟨"fr", "ns", "Order mismatch at index 1: 'undefined' vs 'y'"⟩]
        : List ValidationIssue).filter
          (fun i => i.locale == "fr" && i.ns == "ns") =
      [⟨"fr", "ns", countMsg 1 3⟩, ⟨"fr", "ns", orderMsg 1 none "y"⟩] := by
  exact claim_C10
    [("en", [("ns", [("x", "1"), ("y", "2"), ("z", "3")])]),
     ("fr", [("ns", [("x", "1")])])]
    "en" "fr" "ns"
    [("ns", [("x", "1"), ("y", "2"), ("z", "3")])]
    [("ns", [("x", "1")])]
    [("x", "1")]
    [("x", "1"), ("y", "2"), ("z", "3")]
    "y"
    { namespaces := ["ns"]
      orderByNs := [("ns", ["x", "y", "z"])]
      issues := [⟨"fr", "ns", "Key count mismatch: got 1, expected 3"⟩,
                 ⟨"fr", "ns", "Order mismatch at index 1: 'undefined' vs 'y'"⟩] }
    rfl (by rfl) (by decide) (by decide) (by decide) rfl rfl rfl (by decide) rfl

/-! ### `loadLayout` error behavior -/

/-- If some flat-convention file for `loc` is malformed and no matching
file is unreadable, the flat loop aborts with the bare JSON parse error —
`GenErr.parseError`, which carries no file name. -/
theorem flatScan_parseError (fs : FS) (dir loc : String) :
    ∀ (files : List String) (acc : NsMap) (f : String),
      f ∈ files →
      (strStartsWith f (loc ++ ".") && strEndsWith f ".json") = true →
      fs.file (joinP dir f) = FileRes.malformed →
      (∀ g ∈ files, (strStartsWith g (loc ++ ".") && strEndsWith g ".json") = true →
        fs.file (joinP dir g) ≠ FileRes.unreadable) →
      flatScan fs dir loc files acc = Except.error GenErr.parseError := by
  intro files
  induction files with
  | nil => intro acc f hf _ _ _; cases hf
  | cons g rest ih =>
    intro acc f hf hmatch hmal hnoun
    by_cases hg : (strStartsWith g (loc ++ ".") && strEndsWith g ".json") = true
    · cases hfile : fs.file (joinP dir g) with
      | ok dg =>
          have hfg : f ≠ g := by
            intro he
            subst he
            rw [hfile] at hmal
            cases hmal
          have hfr : f ∈ rest := by
            rcases List.mem_cons.mp hf with he | h
            · exact absurd he hfg
            · exact h
          simp only [flatScan, if_pos hg, readJson, hfile]
          exact ih _ f hfr hmatch hmal
            (fun g' hg' => hnoun g' (List.mem_cons_of_mem _ hg'))
      | unreadable =>
          exact absurd hfile (hnoun g (List.mem_cons_self _ _) hg)
      | malformed =>
          simp only [flatScan, if_pos hg, readJson, hfile]
    · have hfg : f ≠ g := fun he => hg (he ▸ hmatch)
      have hfr : f ∈ rest := by
        rcases List.mem_cons.mp hf with he | h
        · exact absurd he hfg
        · exact h
      simp only [flatScan, if_neg hg]
      exact ih _ f hfr hmatch hmal
        (fun g' hg' => hnoun g' (List.mem_cons_of_mem _ hg'))

/-- The nested loop stops at the first failing `.json` file: every entry
after it is never read (the result does not depend on `post`), because the
thrown exception leaves the loop for the surrounding empty `catch`. -/
theorem nestedScan_stops (fs : FS) (dir : String) :
    ∀ (pre : List String) (bad : String) (post : List String)
      (acc : NsMap) (found : Bool),
      (∀ g ∈ pre, strEndsWith g ".json" = true →
        ∃ dg, fs.file (joinP dir g) = FileRes.ok dg) →
      strEndsWith bad ".json" = true →
      (∀ dg, fs.file (joinP dir bad) ≠ FileRes.ok dg) →
      nestedScan fs dir (pre ++ bad :: post) acc found =
        nestedScan fs dir (pre ++ [bad]) acc found := by
  intro pre
  induction pre with
  | nil =>
    intro bad post acc found _ hbad hbadf
    simp only [List.nil_append]
    cases hfile : fs.file (joinP dir bad) with
    | ok dg => exact absurd hfile (hbadf dg)
    | unreadable => simp only [nestedScan, if_pos hbad, readJson, hfile]
    | malformed => simp only [nestedScan, if_pos hbad, readJson, hfile]
  | cons g rest ih =>
    intro bad post acc found hok hbad hbadf
    by_cases hg : strEndsWith g ".json" = true
    · obtain ⟨dg, hfile⟩ := hok g (List.mem_cons_self _ _) hg
      simp only [List.cons_append, nestedScan, if_pos hg, readJson, hfile]
      exact ih bad post _ true
        (fun g' hg' => hok g' (List.mem_cons_of_mem _ hg')) hbad hbadf
    · simp only [List.cons_append, nestedScan, if_neg hg]
      exact ih bad post acc found
        (fun g' hg' => hok g' (List.mem_cons_of_mem _ hg')) hbad hbadf

/-- When the nested directory exists and at least one nested file loaded,
the locale is accepted with whatever the (possibly truncated) nested scan
produced — failures in it never abort the run. -/
theorem loadLocaleNs_found (fs : FS) (dir loc : String)
    (hdir : fs.isDir (joinP dir loc) = true)
    (hfound : (nestedScan fs (joinP dir loc)
      (fs.listing (joinP dir loc)) [] false).2 = true) :
    loadLocaleNs fs dir loc =
      Except.ok (nestedScan fs (joinP dir loc)
        (fs.listing (joinP dir loc)) [] false).1 := by
  simp [loadLocaleNs, hdir, hfound]

/-- A per-locale error aborts the whole `loadLayout` loop. -/
theorem loadLayoutGo_error (fs : FS) (dir : String) :
    ∀ (locales : List String) (acc : InputLayout) (loc : String) (e : GenErr),
      loc ∈ locales → loadLocaleNs fs dir loc = Except.error e →
      ∃ e', loadLayoutGo fs dir locales acc = Except.error e' := by
  intro locales
  induction locales with
  | nil => intro acc loc e hmem; cases hmem
  | cons g rest ih =>
    intro acc loc e hmem he
    cases hg : loadLocaleNs fs dir g with
    | error e2 => exact ⟨e2, by simp [loadLayoutGo, hg]⟩
    | ok m =>
        have hr : loc ∈ rest := by
          rcases List.mem_cons.mp hmem with rfl | h
          · rw [hg] at he; cases he
          · exact h
        obtain ⟨e', he'⟩ := ih (alSet acc g m) loc e hr he
        exact ⟨e', by simp [loadLayoutGo, hg, he']⟩

/-- The file system of the C6 scenario: locale `en` uses the nested
convention (`a.json` well-formed, `b.json` malformed); locale `fr` uses
the flat convention with a single malformed file. -/
def c6FS : FS :=
  { isDir := fun p => p == "in/en"
    listing := fun p =>
      if p == "in/en" then ["a.json", "b.json"]
      else if p == "in" then ["fr.a.json"] else []
    file := fun p =>
      if p == "in/en/a.json" then FileRes.ok [("k", "v")] else FileRes.malformed }

/-- **C6** (counterexample).  `in/en/b.json` is a listed, required `.json`
file of locale `en` and is malformed — yet `loadLayout` succeeds, and it
returns a partial layout that silently lacks the `b` namespace: the
malformed nested file neither aborts the run nor is reported, refuting the
claim that any malformed required file fails the whole run with no partial
layout. -/
theorem claim_C6_counterexample :
    c6FS.file "in/en/b.json" = FileRes.malformed ∧
    "b.json" ∈ c6FS.listing "in/en" ∧
    loadLayout c6FS "in" ["en"] = Except.ok [("en", [("a", [("k", "v")])])] :=
  ⟨by rfl, by decide, by rfl⟩

/-- **C6** (amended).  A malformed JSON file reached through the flat
convention does abort the whole generation run — `loadLocaleNs` fails and
`loadLayout` propagates an error — but with the bare JSON parse error,
which identifies no file (hypotheses: the locale has no nested directory,
a matching flat file is malformed, and no matching flat file is
unreadable).  A malformed or unreadable file under the nested convention
is instead silently swallowed by the empty `catch`: the nested scan stops
at the first failing file (entries after it are never read), and whenever
at least one earlier nested file had loaded, the locale is accepted with
the truncated namespace map — a partial layout, no error. -/
theorem claim_C6 (fs : FS) (dir loc f : String) (locales : List String)
    (hdir : fs.isDir (joinP dir loc) = false)
    (hf : f ∈ fs.listing dir)
    (hmatch : (strStartsWith f (loc ++ ".") && strEndsWith f ".json") = true)
    (hmal : fs.file (joinP dir f) = FileRes.malformed)
    (hnoun : ∀ g ∈ fs.listing dir,
      (strStartsWith g (loc ++ ".") && strEndsWith g ".json") = true →
      fs.file (joinP dir g) ≠ FileRes.unreadable)
    (hloc : loc ∈ locales) :
    loadLocaleNs fs dir loc = Except.error GenErr.parseError ∧
    (∃ e', loadLayout fs dir locales = Except.error e') ∧
    (∀ (dirB : String) (pre : List String) (bad : String) (post : List String)
        (acc : NsMap) (found : Bool),
      (∀ g ∈ pre, strEndsWith g ".json" = true →
        ∃ dg, fs.file (joinP dirB g) = FileRes.ok dg) →
      strEndsWith bad ".json" = true →
      (∀ dg, fs.file (joinP dirB bad) ≠ FileRes.ok dg) →
      nestedScan fs dirB (pre ++ bad :: post) acc found =
        nestedScan fs dirB (pre ++ [bad]) acc found) ∧
    (∀ (dirB locB : String), fs.isDir (joinP dirB locB) = true →
      (nestedScan fs (joinP dirB locB)
        (fs.listing (joinP dirB locB)) [] false).2 = true →
      loadLocaleNs fs dirB locB =
        Except.ok (nestedScan fs (joinP dirB locB)
          (fs.listing (joinP dirB locB)) [] false).1) := by
  have hflat : loadLocaleNs fs dir loc = Except.error GenErr.parseError := by
    simp only [loadLocaleNs, hdir, Bool.false_eq_true, if_false]
    exact flatScan_parseError fs dir loc (fs.listing dir) [] f hf hmatch hmal hnoun
  refine ⟨hflat, ?_, ?_, ?_⟩
  · exact loadLayoutGo_error fs dir locales [] loc GenErr.parseError hloc hflat
  · intro dirB pre bad post acc found hok hbad hbadf
    exact nestedScan_stops fs dirB pre bad post acc found hok hbad hbadf
  · intro dirB locB hdirB hfoundB
    exact loadLocaleNs_found fs dirB locB hdirB hfoundB

/-- Witness for the amended C6 on `c6FS`: locale `fr`, flat file
`fr.a.json` malformed — the run aborts with the nameless parse error —
and the nested-swallow facts instantiated. -/
theorem claim_C6_witness :
    (loadLocaleNs c6FS "in" "fr" = Except.error GenErr.parseError ∧
      (∃ e', loadLayout c6FS "in" ["fr"] = Except.error e') ∧
      (∀ (dirB : String) (pre : List String) (bad : String) (post : List String)
          (acc : NsMap) (found : Bool),
        (∀ g ∈ pre, strEndsWith g ".json" = true →
          ∃ dg, c6FS.file (joinP dirB g) = FileRes.ok dg) →
        strEndsWith bad ".json" = true →
        (∀ dg, c6FS.file (joinP dirB bad) ≠ FileRes.ok dg) →
        nestedScan c6FS dirB (pre ++ bad :: post) acc found =
          nestedScan c6FS dirB (pre ++ [bad]) acc found) ∧
      (∀ (dirB locB : String), c6FS.isDir (joinP dirB locB) = true →
        (nestedScan c6FS (joinP dirB locB)
          (c6FS.listing (joinP dirB locB)) [] false).2 = true →
        loadLocaleNs c6FS dirB locB =
          Except.ok (nestedScan c6FS (joinP dirB locB)
            (c6FS.listing (joinP dirB locB)) [] false).1)) :=
  claim_C6 c6FS "in" "fr" "fr.a.json" ["fr"]
    (by decide) (by decide) (by decide) (by decide) (by decide) (by decide)

end Lokat
